import Mathlib

/-!
Verification development for the derivative-free RL optimization core:
`src/ReinforcementLearning/RL_PopulationMethod.py` and
`src/ReinforcementLearning/RL_ZerothOrder.py`.

Modelling choices:
* Parameter tensors are flattened to lists of exact rationals (`ℚ`); the
  Python code's float arithmetic is modelled exactly.
* The external `LunarLander-v3` simulation is an abstract collaborator
  (`EnvModel`): its whole behaviour is determined by an internal
  pseudo-random-generator state `σ : ℕ`.  `seedFn s` is the state after
  `env.reset(seed=s)`, and `ep params σ` runs one full episode (the inner
  `while` loop of `evaluate_policy`, with the hard 500-step cap) returning
  the episode's cumulative reward and the successor state.  The policy
  network is deterministic, so an episode's outcome depends only on the
  parameters and on `σ`.
* The Gaussian draws of `torch.randn_like` are supplied as explicit noise
  streams (`nf : String → ℕ → ℚ` indexed by parameter name and flat index;
  one stream per candidate / per generation where the source draws fresh
  noise).
* Python's `float("inf")` sentinels are modelled with `WithBot ℚ` (`⊥` is
  `-inf`) and `WithTop` where needed.
-/

namespace RL

/-- A parameter tensor, flattened to a flat list of exact rationals. -/
abbrev Tensor := List ℚ

/-- The `named_parameters()` / `state_dict()` view of a `PolicyNet`:
an ordered name-to-tensor mapping. -/
abbrev ParameterSet := List (String × Tensor)

/-- Abstract model of the external simulation (`gym.make("LunarLander-v3")`
wrapped in a 500-step `TimeLimit`).  `σ : ℕ` is the environment's internal
RNG/simulation state; `seedFn s` is the state right after `reset(seed=s)`;
`ep params σ` runs one complete episode with the (deterministic) policy given
by `params`, returning its cumulative reward and the state afterwards. -/
structure EnvModel where
  seedFn : ℤ → ℕ
  ep : ParameterSet → ℕ → ℚ × ℕ

/-- The per-episode reset seed `seed + i if seed else None` of
`evaluate_policy`.  Python truthiness: both `None` and the integer `0` are
falsy, so `seed = 0` yields an unseeded reset for every episode. -/
def resetSeed (seed : Option ℤ) (i : ℕ) : Option ℤ :=
  match seed with
  | none => none
  | some v => if v ≠ 0 then some (v + i) else none

/-- One iteration of the episode loop of `evaluate_policy`: reset (seeded or
not), run the episode, accumulate its reward. -/
def evalStep (E : EnvModel) (p : ParameterSet) (seed : Option ℤ)
    (acc : ℚ × ℕ) (i : ℕ) : ℚ × ℕ :=
  let σ0 : ℕ :=
    match resetSeed seed i with
    | some t => E.seedFn t
    | none => acc.2
  let r := E.ep p σ0
  (acc.1 + r.1, r.2)

/-- Model of `LandEnvironment.evaluate_policy(policy_net, episodes, seed=None)`:
mean cumulative reward over `episodes` episodes, threading the environment
state.  (Python raises `ZeroDivisionError` at `episodes = 0`; here `ℚ`
division by zero returns `0`; no claim depends on that case.) -/
def evaluate_policy (E : EnvModel) (p : ParameterSet) (episodes : ℕ)
    (seed : Option ℤ) (σ : ℕ) : ℚ × ℕ :=
  let t := (List.range episodes).foldl (evalStep E p seed) (0, σ)
  (t.1 / (episodes : ℚ), t.2)

/-- Model of `torch.randn_like(param) * std_dev`: the Gaussian draw for parameter `n`,
entry `j`, comes from the supplied stream `nf`, scaled by `std`. -/
def noiseTensor (nf : String → ℕ → ℚ) (std : ℚ) (n : String) (t : Tensor) :
    Tensor :=
  (List.range t.length).map (fun j => nf n j * std)

/-- A clone whose every tensor has been overwritten with `param + noise`
(the candidate construction of `population_method`, and `policy_pos` of
`zeroth_order`). -/
def perturbPos (p : ParameterSet) (nf : String → ℕ → ℚ) (std : ℚ) :
    ParameterSet :=
  p.map (fun e => (e.1, List.zipWith (· + ·) e.2 (noiseTensor nf std e.1 e.2)))

/-- A clone whose every tensor has been overwritten with `param - noise`
(`policy_neg` of `zeroth_order`). -/
def perturbNeg (p : ParameterSet) (nf : String → ℕ → ℚ) (std : ℚ) :
    ParameterSet :=
  p.map (fun e => (e.1, List.zipWith (· - ·) e.2 (noiseTensor nf std e.1 e.2)))

/-- The `perturbations` dictionary of `zeroth_order`: name → sampled noise. -/
def perturbations (p : ParameterSet) (nf : String → ℕ → ℚ) (std : ℚ) :
    ParameterSet :=
  p.map (fun e => (e.1, noiseTensor nf std e.1 e.2))

/-- One iteration of the candidate loop of `population_method`: build the
perturbed candidate, evaluate it (threading the environment state), and keep
it iff its score is strictly greater than the best so far
(`if score > best_score`). -/
def popStep (E : EnvModel) (p : ParameterSet) (noiseFn : ℕ → String → ℕ → ℚ)
    (std : ℚ) (evalEpisodes : ℕ) (seedArg : Option ℤ)
    (acc : Option ParameterSet × WithBot ℚ × ℕ) (k : ℕ) :
    Option ParameterSet × WithBot ℚ × ℕ :=
  let cand := perturbPos p (noiseFn k) std
  let es := evaluate_policy E cand evalEpisodes seedArg acc.2.2
  if acc.2.1 < (es.1 : WithBot ℚ) then (some cand, (es.1 : WithBot ℚ), es.2)
  else (acc.1, acc.2.1, es.2)

/-- Model of `population_method(policy, environment, std_dev, population_size,
eval_episodes)`.  `genSeed` is the value drawn by
`np.random.randint(0, 2**31 - 1)` and shared (as `seed=seed`) by every
candidate evaluation; `noiseFn k` is candidate `k`'s noise stream;
`best_score` starts at `-float("inf")` (`⊥`) and `best_candidate` at `None`.
Python's `for _ in range(population_size)` runs `max population_size 0`
times, raising nothing when `population_size ≤ 0`. -/
def population_method (E : EnvModel) (p : ParameterSet)
    (noiseFn : ℕ → String → ℕ → ℚ) (std : ℚ) (population_size : ℤ)
    (evalEpisodes : ℕ) (genSeed : ℤ) (σ : ℕ) :
    Option ParameterSet × WithBot ℚ × ℕ :=
  (List.range population_size.toNat).foldl
    (popStep E p noiseFn std evalEpisodes (some genSeed)) (none, ⊥, σ)

/-- The candidate/score trace of one `population_method` generation: the
perturbed candidates in evaluation order, each paired with its mean reward,
with the environment state threaded exactly as in `population_method`. -/
def candScoresGo (E : EnvModel) (p : ParameterSet)
    (noiseFn : ℕ → String → ℕ → ℚ) (std : ℚ) (evalEpisodes : ℕ)
    (seedArg : Option ℤ) : List ℕ → ℕ → List (ParameterSet × ℚ) × ℕ
  | [], σ => ([], σ)
  | k :: ks, σ =>
      let cand := perturbPos p (noiseFn k) std
      let es := evaluate_policy E cand evalEpisodes seedArg σ
      let rest := candScoresGo E p noiseFn std evalEpisodes seedArg ks es.2
      ((cand, es.1) :: rest.1, rest.2)

/-- All candidates sampled (and their scores) in one generation of
`population_method`, in evaluation order. -/
def candScores (E : EnvModel) (p : ParameterSet)
    (noiseFn : ℕ → String → ℕ → ℚ) (std : ℚ) (population_size : ℤ)
    (evalEpisodes : ℕ) (genSeed : ℤ) (σ : ℕ) :
    List (ParameterSet × ℚ) × ℕ :=
  candScoresGo E p noiseFn std evalEpisodes (some genSeed)
    (List.range population_size.toNat) σ

/-- The strictly-greater selection step of `population_method`
(`if score > best_score`), separated from the environment threading. -/
def selStep {α : Type} (acc : Option α × WithBot ℚ) (cs : α × ℚ) :
    Option α × WithBot ℚ :=
  if acc.2 < (cs.2 : WithBot ℚ) then (some cs.1, (cs.2 : WithBot ℚ)) else acc

/-- A `population_method` variant whose candidate evaluations pass no seed
at all (`seed=None`); used only to state what "unseeded candidate
evaluations" means for claim C10. -/
def populationMethodUnseeded (E : EnvModel) (p : ParameterSet)
    (noiseFn : ℕ → String → ℕ → ℚ) (std : ℚ) (population_size : ℤ)
    (evalEpisodes : ℕ) (σ : ℕ) :
    Option ParameterSet × WithBot ℚ × ℕ :=
  (List.range population_size.toNat).foldl
    (popStep E p noiseFn std evalEpisodes none) (none, ⊥, σ)

/-- Model of `zeroth_order(policy, std_dev, learning_rate, environment)`: sample the
`perturbations` dictionary, build the `policy_pos` / `policy_neg` clones,
evaluate both without a seed (sequentially against the same environment),
then update the live policy in place with
`param += learning_rate * ((pos_score - neg_score) / 2 * perturbations[name])`
and return `max(pos_score, neg_score)`.  `evalEpisodes` is
`NUM_EVALUATIONS_PER_EPISODE`. -/
def zeroth_order (E : EnvModel) (p : ParameterSet) (nf : String → ℕ → ℚ)
    (std lr : ℚ) (evalEpisodes : ℕ) (σ : ℕ) : ParameterSet × ℚ × ℕ :=
  let pert := perturbations p nf std
  let pr := evaluate_policy E (perturbPos p nf std) evalEpisodes none σ
  let nr := evaluate_policy E (perturbNeg p nf std) evalEpisodes none pr.2
  let updated := p.map (fun e =>
    (e.1, List.zipWith (fun x ν => x + lr * ((pr.1 - nr.1) / 2 * ν)) e.2
      ((List.lookup e.1 pert).getD [])))
  (updated, max pr.1 nr.1, nr.2)

/-! ### Concrete demonstration instances (used by witnesses and
counterexamples). -/

/-- A tiny concrete environment: seeding with `s` puts the RNG state at
`s.toNat`; an episode's reward is the current RNG state and each episode
advances the state by one. -/
def Edemo : EnvModel := ⟨fun z => z.toNat, fun _ σ => ((σ : ℚ), σ + 1)⟩

/-- A zero noise stream for population candidates. -/
def nfDemo : ℕ → String → ℕ → ℚ := fun _ _ _ => 0

/-- A small concrete parameter set with the two-layer naming of the source
networks. -/
def pDemo : ParameterSet := [("network.0.weight", [1, 2]), ("network.0.bias", [3])]

/-! ### C1 — population_method on non-positive population sizes. -/

/-- Claim C1 states that `population_method` fails fast on
`population_size ≤ 0`.  The code raises nothing: at the concrete
configuration below with `population_size = 0` it generates and evaluates no
candidate (the sampled-candidate trace is empty) and silently returns the
initial accumulator `(None, -inf)` together with the untouched environment
state — a normal result, refuting the claim. -/
theorem claim1_counterexample :
    population_method Edemo pDemo nfDemo (1 : ℚ) 0 5 42 3 = (none, ⊥, 3) ∧
    (candScores Edemo pDemo nfDemo (1 : ℚ) 0 5 42 3).1 = [] := by
  constructor
  · rfl
  · rfl

/-- C1 (amended): for every `population_size ≤ 0`, `population_method` does
not fail; its candidate loop body never runs and it silently returns
`(None, -float("inf"))` with the environment state unchanged. -/
theorem claim1_amended (E : EnvModel) (p : ParameterSet)
    (noiseFn : ℕ → String → ℕ → ℚ) (std : ℚ) (population_size : ℤ)
    (evalEpisodes : ℕ) (genSeed : ℤ) (σ : ℕ)
    (hpop : population_size ≤ 0) :
    population_method E p noiseFn std population_size evalEpisodes genSeed σ
      = (none, ⊥, σ) := by
  unfold population_method
  rw [Int.toNat_eq_zero.mpr hpop]
  rfl

/-- Witness for `claim1_amended` at `population_size = -1`. -/
theorem claim1_witness :
    population_method Edemo pDemo nfDemo (1 : ℚ) (-1) 5 42 3 = (none, ⊥, 3) :=
  claim1_amended Edemo pDemo nfDemo 1 (-1) 5 42 3 (by decide)

/-! ### C2 — evaluator determinism. -/

/-- With a truthy (nonzero) seed, every episode of `evaluate_policy` resets
the environment to `seedFn (S + i)`, so the accumulated total is independent
of the environment state the evaluation starts from. -/
lemma foldl_evalStep_seeded (E : EnvModel) (p : ParameterSet) (S : ℤ)
    (hS : S ≠ 0) :
    ∀ (l : List ℕ) (t : ℚ) (σ σ' : ℕ),
      (l.foldl (evalStep E p (some S)) (t, σ)).1
        = (l.foldl (evalStep E p (some S)) (t, σ')).1 := by
  intro l
  induction l with
  | nil => intro t σ σ'; rfl
  | cons i tl ih =>
    intro t σ σ'
    simp only [List.foldl_cons]
    have h : evalStep E p (some S) (t, σ) i = evalStep E p (some S) (t, σ') i := by
      unfold evalStep
      simp [resetSeed, hS]
    rw [h]

/-- C2 (amended): for every policy, episode count and *nonzero* integer seed
`S`, two calls of `evaluate_policy` with identical policy, episode count and
`seed = S` return the identical mean reward, whatever environment state each
call starts from (the per-episode reset seed is `S + episode_index`). -/
theorem claim2_theorem (E : EnvModel) (p : ParameterSet) (N : ℕ) (S : ℤ)
    (σ₁ σ₂ : ℕ) (hS : S ≠ 0) :
    (evaluate_policy E p N (some S) σ₁).1
      = (evaluate_policy E p N (some S) σ₂).1 := by
  unfold evaluate_policy
  simp only
  rw [foldl_evalStep_seeded E p S hS (List.range N) 0 σ₁ σ₂]

/-- Witness for `claim2_theorem` with `N = 2`, `S = 5` and two different
starting environment states. -/
theorem claim2_witness :
    (evaluate_policy Edemo pDemo 2 (some 5) 0).1
      = (evaluate_policy Edemo pDemo 2 (some 5) 9).1 :=
  claim2_theorem Edemo pDemo 2 5 0 9 (by decide)

/-- Counterexample to C2 as stated ("every integer seed S"): with `S = 0`
the per-episode seed expression `seed + i if seed else None` is falsy, every
reset is unseeded, and two back-to-back calls on the same evaluator (the
second starting from the environment state the first left behind) return
different mean rewards. -/
theorem claim2_counterexample :
    (evaluate_policy Edemo pDemo 1 (some 0) 0).1 ≠
      (evaluate_policy Edemo pDemo 1 (some 0)
        ((evaluate_policy Edemo pDemo 1 (some 0) 0).2)).1 := by
  norm_num [evaluate_policy, evalStep, resetSeed, Edemo, pDemo,
    List.range_succ, List.range_zero]

/-! ### C10 — seed 0 is treated like an omitted seed. -/

/-- Calling `evaluate_policy` with `seed = 0` behaves exactly like `seed = None`. -/
lemma evaluate_policy_seed_zero (E : EnvModel) (p : ParameterSet) (N : ℕ)
    (σ : ℕ) :
    evaluate_policy E p N (some 0) σ = evaluate_policy E p N none σ := by
  unfold evaluate_policy
  have h : evalStep E p (some 0) = evalStep E p none := by
    funext acc i
    unfold evalStep
    simp [resetSeed]
  rw [h]

/-- C10: Python's truthiness test `seed + i if seed else None` treats the
integer `0` the same as an omitted seed, so `evaluate_policy` with
`seed = 0` resets the environment unseeded on every episode (it coincides
with the `seed=None` evaluation); consequently, whenever the shared
generation seed drawn by `population_method` is `0`, the whole generation's
candidate evaluations are unseeded. -/
theorem claim10_theorem :
    (∀ (E : EnvModel) (p : ParameterSet) (N : ℕ) (σ : ℕ),
        evaluate_policy E p N (some 0) σ = evaluate_policy E p N none σ) ∧
    (∀ (E : EnvModel) (p : ParameterSet) (noiseFn : ℕ → String → ℕ → ℚ)
        (std : ℚ) (population_size : ℤ) (evalEpisodes : ℕ) (σ : ℕ),
        population_method E p noiseFn std population_size evalEpisodes 0 σ
          = populationMethodUnseeded E p noiseFn std population_size
              evalEpisodes σ) := by
  refine ⟨evaluate_policy_seed_zero, ?_⟩
  intro E p noiseFn std population_size evalEpisodes σ
  unfold population_method populationMethodUnseeded
  have h : popStep E p noiseFn std evalEpisodes (some 0)
      = popStep E p noiseFn std evalEpisodes none := by
    funext acc k
    unfold popStep
    simp only [evaluate_policy_seed_zero]
  rw [h]

/-! ### C8 — antithetic symmetry. -/

/-- Squared Euclidean norm of a tensor. -/
def normSq (t : Tensor) : ℚ := (t.map (fun x => x * x)).sum

lemma noiseTensor_length (nf : String → ℕ → ℚ) (std : ℚ) (n : String)
    (t : Tensor) : (noiseTensor nf std n t).length = t.length := by
  simp [noiseTensor]

lemma zipWith_add_sub (t : Tensor) :
    ∀ ν : Tensor, ν.length = t.length →
      List.zipWith (· - ·) (List.zipWith (· + ·) t ν) t = ν := by
  induction t with
  | nil =>
    intro ν hν
    simp at hν
    simp [hν]
  | cons x txs ih =>
    intro ν hν
    cases ν with
    | nil => simp at hν
    | cons y νs =>
      simp only [List.zipWith_cons_cons, add_sub_cancel_left, List.cons.injEq]
      exact ⟨trivial, ih νs (by simpa using hν)⟩

lemma zipWith_sub_sub (t : Tensor) :
    ∀ ν : Tensor, ν.length = t.length →
      List.zipWith (· - ·) (List.zipWith (· - ·) t ν) t
        = ν.map (fun y => -y) := by
  induction t with
  | nil =>
    intro ν hν
    simp at hν
    simp [hν]
  | cons x txs ih =>
    intro ν hν
    cases ν with
    | nil => simp at hν
    | cons y νs =>
      simp only [List.zipWith_cons_cons, sub_sub_cancel_left, List.map_cons,
        List.cons.injEq]
      exact ⟨trivial, ih νs (by simpa using hν)⟩

lemma normSq_negMap (ν : Tensor) : normSq (ν.map fun y => -y) = normSq ν := by
  induction ν with
  | nil => rfl
  | cons y t ih =>
    simp only [normSq, List.map_cons, List.sum_cons, List.map_map] at ih ⊢
    rw [neg_mul_neg, ih]

lemma map_zip_self {α β : Type} (f : α → β) (l : List α) :
    (l.map f).zip l = l.map (fun a => (f a, a)) := by
  induction l with
  | nil => rfl
  | cons a t ih => simp [ih]

/-- C8: in every zeroth-order generation, for a fixed parameter set and
fixed sampled noise, each tensor of `policy_pos` and the corresponding
tensor of `policy_neg` are equidistant from the original:
`‖pos - original‖ = ‖neg - original‖` for every named parameter tensor
(`pos = original + noise`, `neg = original - noise`). -/
theorem claim8_theorem (p : ParameterSet) (nf : String → ℕ → ℚ) (std : ℚ) :
    ((perturbPos p nf std).zip p).map
        (fun pe => Real.sqrt ((normSq (List.zipWith (· - ·) pe.1.2 pe.2.2) : ℚ)))
      = ((perturbNeg p nf std).zip p).map
        (fun pe => Real.sqrt ((normSq (List.zipWith (· - ·) pe.1.2 pe.2.2) : ℚ)))
    := by
  unfold perturbPos perturbNeg
  rw [map_zip_self, map_zip_self, List.map_map, List.map_map]
  congr 1
  funext e
  simp only [Function.comp]
  rw [zipWith_add_sub e.2 (noiseTensor nf std e.1 e.2)
        (noiseTensor_length nf std e.1 e.2),
      zipWith_sub_sub e.2 (noiseTensor nf std e.1 e.2)
        (noiseTensor_length nf std e.1 e.2),
      normSq_negMap]

/-! ### C5 / C6 — the zeroth-order update formula and the
learning-rate-zero invariant.

PyTorch guarantees that `named_parameters()` yields pairwise-distinct
names, so the `perturbations[name]` dictionary access retrieves exactly the
noise sampled for that parameter; the `Nodup` hypothesis below records that
guarantee. -/

lemma lookup_map_self (g : String → Tensor → Tensor) :
    ∀ (p : ParameterSet), (p.map Prod.fst).Nodup →
      ∀ e ∈ p, List.lookup e.1 (p.map (fun u => (u.1, g u.1 u.2)))
        = some (g e.1 e.2) := by
  intro p
  induction p with
  | nil => intro _ e he; cases he
  | cons u t ih =>
    intro hnd e he
    rw [List.map_cons, List.nodup_cons] at hnd
    rcases List.mem_cons.mp he with rfl | hmem
    · rw [List.map_cons]
      simp
    · rw [List.map_cons, List.lookup_cons]
      have hne : e.1 ≠ u.1 := by
        intro hEq
        exact hnd.1 (hEq ▸ List.mem_map_of_mem Prod.fst hmem)
      have hbeq : (e.1 == u.1) = false := by simp [hne]
      rw [hbeq]
      exact ih hnd.2 e hmem

/-- With pairwise-distinct parameter names, the `perturbations[name]`
lookups in `zeroth_order`'s update loop resolve to the noise tensor sampled
for that very parameter, giving the closed form of one generation. -/
lemma zeroth_order_eq (E : EnvModel) (p : ParameterSet) (nf : String → ℕ → ℚ)
    (std lr : ℚ) (evalEpisodes : ℕ) (σ : ℕ)
    (h : (p.map Prod.fst).Nodup) :
    zeroth_order E p nf std lr evalEpisodes σ =
      (let pr := evaluate_policy E (perturbPos p nf std) evalEpisodes none σ
       let nr := evaluate_policy E (perturbNeg p nf std) evalEpisodes none pr.2
       (p.map (fun e => (e.1,
          List.zipWith (fun x ν => x + lr * ((pr.1 - nr.1) / 2 * ν)) e.2
            (noiseTensor nf std e.1 e.2))),
        max pr.1 nr.1, nr.2)) := by
  unfold zeroth_order
  dsimp only
  congr 1
  apply List.map_congr_left
  intro e he
  have hl := lookup_map_self (noiseTensor nf std) p h e he
  unfold perturbations
  rw [hl]
  rfl

/-- C5: one zeroth-order generation updates the live policy in place by
adding, to every named parameter tensor, `learning_rate *
((pos_score - neg_score) / 2) * noise` — the declared simplified estimator
omitting the `std_dev²` normalization — where `noise` is that tensor's
sampled perturbation and `pos_score`, `neg_score` are the evaluated mean
rewards of the `+noise` / `-noise` clones (`perturbPos` / `perturbNeg`, the
live parameters `p` entering the evaluations only through those clones);
the returned generation reward is `max(pos_score, neg_score)`. -/
theorem claim5_theorem (E : EnvModel) (p : ParameterSet)
    (nf : String → ℕ → ℚ) (std lr : ℚ) (evalEpisodes : ℕ) (σ : ℕ)
    (h : (p.map Prod.fst).Nodup) :
    zeroth_order E p nf std lr evalEpisodes σ =
      (let pos_score :=
        (evaluate_policy E (perturbPos p nf std) evalEpisodes none σ).1
       let nr := evaluate_policy E (perturbNeg p nf std) evalEpisodes none
        (evaluate_policy E (perturbPos p nf std) evalEpisodes none σ).2
       (p.map (fun e => (e.1,
          List.zipWith (fun x ν => x + lr * ((pos_score - nr.1) / 2) * ν) e.2
            (noiseTensor nf std e.1 e.2))),
        max pos_score nr.1, nr.2)) := by
  rw [zeroth_order_eq E p nf std lr evalEpisodes σ h]
  simp only [← mul_assoc]

/-- Witness for `claim5_theorem` at a concrete configuration. -/
theorem claim5_witness :
    zeroth_order Edemo pDemo (fun _ _ => 1) 1 2 1 0 =
      (let pos_score :=
        (evaluate_policy Edemo (perturbPos pDemo (fun _ _ => 1) 1) 1 none 0).1
       let nr := evaluate_policy Edemo (perturbNeg pDemo (fun _ _ => 1) 1) 1
        none
        (evaluate_policy Edemo (perturbPos pDemo (fun _ _ => 1) 1) 1 none 0).2
       (pDemo.map (fun e => (e.1,
          List.zipWith (fun x ν => x + 2 * ((pos_score - nr.1) / 2) * ν) e.2
            (noiseTensor (fun _ _ => 1) 1 e.1 e.2))),
        max pos_score nr.1, nr.2)) :=
  claim5_theorem Edemo pDemo (fun _ _ => 1) 1 2 1 0 (by decide)

/-- Iteration of `zeroth_order` as performed by the
zeroth-order `train()` loop: each generation draws fresh noise
(`ns` indexed by generation) and threads the policy and the environment
state. -/
def iterZeroth (E : EnvModel) (ns : ℕ → String → ℕ → ℚ) (std lr : ℚ)
    (evalEpisodes : ℕ) : ℕ → ParameterSet × ℕ → ParameterSet × ℕ
  | 0, s => s
  | n + 1, s =>
      let r := zeroth_order E s.1 (ns n) std lr evalEpisodes s.2
      iterZeroth E ns std lr evalEpisodes n (r.1, r.2.2)

lemma zipWith_const_left :
    ∀ (t u : Tensor), u.length = t.length →
      List.zipWith (fun x _ => x) t u = t := by
  intro t
  induction t with
  | nil => intro u _; rfl
  | cons x txs ih =>
    intro u hu
    cases u with
    | nil => simp at hu
    | cons y us =>
      simp only [List.zipWith_cons_cons, List.cons.injEq]
      exact ⟨trivial, ih us (by simpa using hu)⟩

lemma zipWith_zero_step (c : ℚ) (t u : Tensor) (hu : u.length = t.length) :
    List.zipWith (fun x ν => x + (0 : ℚ) * (c * ν)) t u = t := by
  have hf : (fun (x ν : ℚ) => x + 0 * (c * ν)) = (fun x _ => x) := by
    funext x ν
    rw [zero_mul, add_zero]
  rw [hf]
  exact zipWith_const_left t u hu

/-- With `learning_rate = 0`, one `zeroth_order` generation leaves every
parameter tensor exactly unchanged. -/
lemma zeroth_order_lr_zero (E : EnvModel) (p : ParameterSet)
    (nf : String → ℕ → ℚ) (std : ℚ) (evalEpisodes : ℕ) (σ : ℕ)
    (h : (p.map Prod.fst).Nodup) :
    (zeroth_order E p nf std 0 evalEpisodes σ).1 = p := by
  rw [zeroth_order_eq E p nf std 0 evalEpisodes σ h]
  dsimp only
  have hmap : ∀ e ∈ p, (e.1,
      List.zipWith (fun x ν => x + (0 : ℚ) *
        (((evaluate_policy E (perturbPos p nf std) evalEpisodes none σ).1 -
          (evaluate_policy E (perturbNeg p nf std) evalEpisodes none
            (evaluate_policy E (perturbPos p nf std) evalEpisodes none
              σ).2).1) / 2 * ν)) e.2
        (noiseTensor nf std e.1 e.2)) = e := by
    intro e _
    rw [zipWith_zero_step _ e.2 (noiseTensor nf std e.1 e.2)
      (noiseTensor_length nf std e.1 e.2)]
  rw [List.map_congr_left hmap]
  simp

/-- C6: with `learning_rate = 0`, for every number of zeroth-order
generations `n`, every parameter tensor of the live policy after `n`
generations equals its initial value exactly — the predicate "parameters
equal the initial values" is preserved by each `zeroth_order` step
(the per-generation rewards, which are not constrained here, may still vary
with the antithetic evaluations). -/
theorem claim6_theorem (E : EnvModel) (ns : ℕ → String → ℕ → ℚ) (std : ℚ)
    (evalEpisodes : ℕ) (p : ParameterSet)
    (h : (p.map Prod.fst).Nodup) :
    ∀ (n σ : ℕ), (iterZeroth E ns std 0 evalEpisodes n (p, σ)).1 = p := by
  intro n
  induction n with
  | zero => intro σ; rfl
  | succ m ih =>
    intro σ
    simp only [iterZeroth]
    rw [zeroth_order_lr_zero E p (ns m) std evalEpisodes σ h]
    exact ih _

/-- Witness for `claim6_theorem`: two generations at a concrete
configuration. -/
theorem claim6_witness :
    (iterZeroth Edemo (fun _ _ _ => 1) 1 0 1 2 (pDemo, 0)).1 = pDemo :=
  claim6_theorem Edemo (fun _ _ _ => 1) 1 1 pDemo (by decide) 2 0

/-! ### C7 — selection optimality of `population_method`. -/

/-- Folding the strictly-greater selection step from an already-selected
candidate `(c, s)`: either nothing in `l` beats `s` and the accumulator is
kept, or the result is the first element of `l` strictly beating `s` that no
earlier element (of `l`) reaches and no later element strictly exceeds. -/
lemma sel_inv {α : Type} :
    ∀ (l : List (α × ℚ)) (c : α) (s : ℚ),
      ∃ (c' : α) (s' : ℚ), l.foldl selStep (some c, (s : WithBot ℚ))
          = (some c', (s' : WithBot ℚ)) ∧
        ((c' = c ∧ s' = s ∧ ∀ q ∈ l, q.2 ≤ s) ∨
         (∃ l₁ l₂ : List (α × ℚ), l = l₁ ++ (c', s') :: l₂ ∧ s < s' ∧
           (∀ q ∈ l₁, q.2 < s') ∧ (∀ q ∈ l₂, q.2 ≤ s'))) := by
  intro l
  induction l with
  | nil =>
    intro c s
    exact ⟨c, s, rfl, Or.inl ⟨rfl, rfl, by simp⟩⟩
  | cons x t ih =>
    intro c s
    by_cases hx : s < x.2
    · have hstep : selStep (some c, (s : WithBot ℚ)) x
          = (some x.1, (x.2 : WithBot ℚ)) := by
        unfold selStep
        rw [if_pos (WithBot.coe_lt_coe.mpr hx)]
      obtain ⟨c', s', heq, hcase⟩ := ih x.1 x.2
      refine ⟨c', s', by rw [List.foldl_cons, hstep]; exact heq, Or.inr ?_⟩
      rcases hcase with ⟨hc, hs, hall⟩ | ⟨l₁, l₂, hsplit, hlt, h₁, h₂⟩
      · refine ⟨[], t, ?_, by rw [hs]; exact hx, by simp, by rw [hs]; exact hall⟩
        rw [hc, hs]
        simp
      · refine ⟨x :: l₁, l₂, by rw [List.cons_append, hsplit],
          lt_trans hx hlt, ?_, h₂⟩
        intro q hq
        rcases List.mem_cons.mp hq with rfl | hq'
        · exact hlt
        · exact h₁ q hq'
    · have hstep : selStep (some c, (s : WithBot ℚ)) x
          = (some c, (s : WithBot ℚ)) := by
        unfold selStep
        rw [if_neg (fun hcon => hx (WithBot.coe_lt_coe.mp hcon))]
      obtain ⟨c', s', heq, hcase⟩ := ih c s
      refine ⟨c', s', by rw [List.foldl_cons, hstep]; exact heq, ?_⟩
      rcases hcase with ⟨hc, hs, hall⟩ | ⟨l₁, l₂, hsplit, hlt, h₁, h₂⟩
      · refine Or.inl ⟨hc, hs, ?_⟩
        intro q hq
        rcases List.mem_cons.mp hq with rfl | hq'
        · exact le_of_not_lt hx
        · exact hall q hq'
      · refine Or.inr ⟨x :: l₁, l₂, by rw [List.cons_append, hsplit], hlt, ?_, h₂⟩
        intro q hq
        rcases List.mem_cons.mp hq with rfl | hq'
        · exact lt_of_le_of_lt (le_of_not_lt hx) hlt
        · exact h₁ q hq'

/-- Folding the selection step from the initial accumulator
`(None, -inf)` over a nonempty score list selects the first element
achieving the maximum: every earlier element scores strictly less, every
later element scores at most as much. -/
lemma sel_none {α : Type} (x : α × ℚ) (t : List (α × ℚ)) :
    ∃ (c' : α) (s' : ℚ), (x :: t).foldl selStep (none, (⊥ : WithBot ℚ))
        = (some c', (s' : WithBot ℚ)) ∧
      ∃ l₁ l₂ : List (α × ℚ), x :: t = l₁ ++ (c', s') :: l₂ ∧
        (∀ q ∈ l₁, q.2 < s') ∧ (∀ q ∈ l₂, q.2 ≤ s') := by
  have hstep : selStep (none, (⊥ : WithBot ℚ)) x
      = (some x.1, (x.2 : WithBot ℚ)) := by
    unfold selStep
    rw [if_pos (WithBot.bot_lt_coe x.2)]
  obtain ⟨c', s', heq, hcase⟩ := sel_inv t x.1 x.2
  refine ⟨c', s', by rw [List.foldl_cons, hstep]; exact heq, ?_⟩
  rcases hcase with ⟨hc, hs, hall⟩ | ⟨l₁, l₂, hsplit, hlt, h₁, h₂⟩
  · refine ⟨[], t, ?_, by simp, by rw [hs]; exact hall⟩
    rw [hc, hs]
    simp
  · refine ⟨x :: l₁, l₂, by rw [List.cons_append, hsplit], ?_, h₂⟩
    intro q hq
    rcases List.mem_cons.mp hq with rfl | hq'
    · exact hlt
    · exact h₁ q hq'

/-- The interleaved best-tracking fold of `population_method` computes the
selection fold of the candidate/score trace, with the final environment
state of the trace. -/
lemma pop_bridge (E : EnvModel) (p : ParameterSet)
    (noiseFn : ℕ → String → ℕ → ℚ) (std : ℚ) (evalEpisodes : ℕ)
    (seedArg : Option ℤ) :
    ∀ (ks : List ℕ) (b : Option ParameterSet × WithBot ℚ) (σ : ℕ),
      ks.foldl (popStep E p noiseFn std evalEpisodes seedArg) (b.1, b.2, σ)
        = (((candScoresGo E p noiseFn std evalEpisodes seedArg ks σ).1.foldl
              selStep b).1,
           ((candScoresGo E p noiseFn std evalEpisodes seedArg ks σ).1.foldl
              selStep b).2,
           (candScoresGo E p noiseFn std evalEpisodes seedArg ks σ).2) := by
  intro ks
  induction ks with
  | nil => intro b σ; rfl
  | cons k t ih =>
    intro b σ
    have hstep : popStep E p noiseFn std evalEpisodes seedArg (b.1, b.2, σ) k
        = ((selStep b (perturbPos p (noiseFn k) std,
              (evaluate_policy E (perturbPos p (noiseFn k) std) evalEpisodes
                seedArg σ).1)).1,
           (selStep b (perturbPos p (noiseFn k) std,
              (evaluate_policy E (perturbPos p (noiseFn k) std) evalEpisodes
                seedArg σ).1)).2,
           (evaluate_policy E (perturbPos p (noiseFn k) std) evalEpisodes
              seedArg σ).2) := by
      unfold popStep selStep
      dsimp only
      by_cases hc : b.2 < ((evaluate_policy E (perturbPos p (noiseFn k) std)
          evalEpisodes seedArg σ).1 : WithBot ℚ)
      · rw [if_pos hc, if_pos hc]
      · rw [if_neg hc, if_neg hc]
    rw [List.foldl_cons, hstep, ih]
    show _ = (((candScoresGo E p noiseFn std evalEpisodes seedArg (k :: t)
        σ).1.foldl selStep b).1, _, _)
    rw [show (candScoresGo E p noiseFn std evalEpisodes seedArg (k :: t) σ)
        = ((perturbPos p (noiseFn k) std,
            (evaluate_policy E (perturbPos p (noiseFn k) std) evalEpisodes
              seedArg σ).1) ::
           (candScoresGo E p noiseFn std evalEpisodes seedArg t
             (evaluate_policy E (perturbPos p (noiseFn k) std) evalEpisodes
               seedArg σ).2).1,
           (candScoresGo E p noiseFn std evalEpisodes seedArg t
             (evaluate_policy E (perturbPos p (noiseFn k) std) evalEpisodes
               seedArg σ).2).2) from rfl]
    rw [List.foldl_cons]

lemma candScoresGo_length (E : EnvModel) (p : ParameterSet)
    (noiseFn : ℕ → String → ℕ → ℚ) (std : ℚ) (evalEpisodes : ℕ)
    (seedArg : Option ℤ) :
    ∀ (ks : List ℕ) (σ : ℕ),
      (candScoresGo E p noiseFn std evalEpisodes seedArg ks σ).1.length
        = ks.length := by
  intro ks
  induction ks with
  | nil => intro σ; rfl
  | cons k t ih =>
    intro σ
    simp only [candScoresGo, List.length_cons]
    rw [ih]

/-- With at least one candidate, `population_method` performs first-seen
argmax selection over the generation's candidate trace. -/
lemma population_method_argmax (E : EnvModel) (p : ParameterSet)
    (noiseFn : ℕ → String → ℕ → ℚ) (std : ℚ) (population_size : ℤ)
    (evalEpisodes : ℕ) (genSeed : ℤ) (σ : ℕ)
    (hpop : 1 ≤ population_size) :
    ∃ (c : ParameterSet) (s : ℚ) (l₁ l₂ : List (ParameterSet × ℚ)),
      population_method E p noiseFn std population_size evalEpisodes genSeed σ
        = (some c, (s : WithBot ℚ),
           (candScores E p noiseFn std population_size evalEpisodes genSeed
             σ).2) ∧
      (candScores E p noiseFn std population_size evalEpisodes genSeed σ).1
        = l₁ ++ (c, s) :: l₂ ∧
      (∀ q ∈ l₁, q.2 < s) ∧ (∀ q ∈ l₂, q.2 ≤ s) := by
  have hlen : (candScores E p noiseFn std population_size evalEpisodes genSeed
      σ).1.length = population_size.toNat := by
    unfold candScores
    rw [candScoresGo_length, List.length_range]
  have hpos : 0 < (candScores E p noiseFn std population_size evalEpisodes
      genSeed σ).1.length := by
    rw [hlen]
    omega
  obtain ⟨x, t, hxt⟩ :=
    List.exists_cons_of_ne_nil (List.ne_nil_of_length_pos hpos)
  obtain ⟨c', s', heq, l₁, l₂, hsplit, h₁, h₂⟩ := sel_none x t
  refine ⟨c', s', l₁, l₂, ?_, by rw [hxt]; exact hsplit, h₁, h₂⟩
  have hbridge := pop_bridge E p noiseFn std evalEpisodes (some genSeed)
    (List.range population_size.toNat) (none, ⊥) σ
  unfold population_method
  rw [hbridge]
  rw [show candScoresGo E p noiseFn std evalEpisodes (some genSeed)
      (List.range population_size.toNat) σ
      = candScores E p noiseFn std population_size evalEpisodes genSeed σ
    from rfl]
  rw [hxt, heq]

/-- C7: in every population generation with `population_size ≥ 1`,
`population_method` returns some candidate `c` with score `s` taken from the
generation's sampled candidate trace, such that every candidate evaluated
before it scored strictly less and every candidate evaluated after it scored
at most `s` — so `s` is greatest among all sampled candidates' mean rewards
and, among candidates with equal maximal reward, the first-evaluated one is
selected. -/
theorem claim7_theorem (E : EnvModel) (p : ParameterSet)
    (noiseFn : ℕ → String → ℕ → ℚ) (std : ℚ) (population_size : ℤ)
    (evalEpisodes : ℕ) (genSeed : ℤ) (σ : ℕ)
    (hpop : 1 ≤ population_size) :
    ∃ (c : ParameterSet) (s : ℚ) (l₁ l₂ : List (ParameterSet × ℚ)),
      population_method E p noiseFn std population_size evalEpisodes genSeed σ
        = (some c, (s : WithBot ℚ),
           (candScores E p noiseFn std population_size evalEpisodes genSeed
             σ).2) ∧
      (candScores E p noiseFn std population_size evalEpisodes genSeed σ).1
        = l₁ ++ (c, s) :: l₂ ∧
      (∀ q ∈ l₁, q.2 < s) ∧ (∀ q ∈ l₂, q.2 ≤ s) :=
  population_method_argmax E p noiseFn std population_size evalEpisodes
    genSeed σ hpop

/-- Witness for `claim7_theorem` at a concrete two-candidate generation. -/
theorem claim7_witness :
    ∃ (c : ParameterSet) (s : ℚ) (l₁ l₂ : List (ParameterSet × ℚ)),
      population_method Edemo pDemo nfDemo 1 2 1 7 0
        = (some c, (s : WithBot ℚ),
           (candScores Edemo pDemo nfDemo 1 2 1 7 0).2) ∧
      (candScores Edemo pDemo nfDemo 1 2 1 7 0).1 = l₁ ++ (c, s) :: l₂ ∧
      (∀ q ∈ l₁, q.2 < s) ∧ (∀ q ∈ l₂, q.2 ≤ s) :=
  claim7_theorem Edemo pDemo nfDemo 1 2 1 7 0 (by decide)

/-! ### The two `train()` drivers (C3 / C4). -/

/-- What a training run leaves behind: the metric-log lines written (one
`(episode, reward)` pair per `logger.write(episode, score)` call, in order),
the tracked best/worst generation (present only when the source tracks
them), and the final parameter snapshot written by `torch.save` (present
only when the source saves one). -/
structure TrainResult where
  logLines : List (ℕ × WithBot ℚ)
  bestTrack : Option (ℤ × WithBot ℚ)
  worstTrack : Option (ℤ × WithTop (WithBot ℚ))
  snapshot : Option ParameterSet

/-- Loop state of the population `train()`: the live policy, the
environment state, the log so far, and the best/worst trackers
(`best_reward = -inf`, `worst_reward = +inf`, episodes `-1` initially). -/
structure PopState where
  policy : ParameterSet
  env : ℕ
  logLines : List (ℕ × WithBot ℚ)
  bestReward : WithBot ℚ
  worstReward : WithTop (WithBot ℚ)
  bestEpisode : ℤ
  worstEpisode : ℤ

/-- One generation of the population `train()` loop: run
`population_method` (with generation `ep`'s numpy seed draw `genSeedOf ep`
and noise streams `noiseOf ep`), append the log line, update the best/worst
trackers with strict comparisons (`reward > best_reward`,
`reward < worst_reward`), and continue with the returned candidate.  A
`None` best candidate (possible only when `population_size ≤ 0`) makes
Python crash with an `AttributeError` at the following generation's
`policy.clone()`; that aborted run is modelled as an erroring fold.
`popNext` is the successor loop state of one non-crashing generation. -/
def popNext (s : PopState) (ep : ℕ) (c : ParameterSet) (rv : WithBot ℚ)
    (σ' : ℕ) : PopState :=
  { policy := c
    env := σ'
    logLines := s.logLines ++ [(ep, rv)]
    bestReward := if s.bestReward < rv then rv else s.bestReward
    bestEpisode := if s.bestReward < rv then (ep : ℤ) else s.bestEpisode
    worstReward :=
      if (rv : WithTop (WithBot ℚ)) < s.worstReward
      then (rv : WithTop (WithBot ℚ)) else s.worstReward
    worstEpisode :=
      if (rv : WithTop (WithBot ℚ)) < s.worstReward
      then (ep : ℤ) else s.worstEpisode }

def popGen (E : EnvModel) (noiseOf : ℕ → ℕ → String → ℕ → ℚ)
    (genSeedOf : ℕ → ℤ) (std : ℚ) (population_size : ℤ) (evalEpisodes : ℕ)
    (acc : Except Unit PopState) (ep : ℕ) : Except Unit PopState :=
  match acc with
  | .error e => .error e
  | .ok s =>
    let r := population_method E s.policy (noiseOf ep) std population_size
      evalEpisodes (genSeedOf ep) s.env
    match r.1 with
    | none => .error ()
    | some c => .ok (popNext s ep c r.2.1 r.2.2)

/-- Model of `train()` of `RL_PopulationMethod.py`: `for ep in range(1, EPISODES + 1)`
runs exactly `episodes` generations with indices `1..episodes`, logging one
line each, tracking best/worst, and finally saving the final policy's
`state_dict()` (`torch.save(policy.state_dict(), "final_policy.pt")`). -/
def popTrain (E : EnvModel) (noiseOf : ℕ → ℕ → String → ℕ → ℚ)
    (genSeedOf : ℕ → ℤ) (std : ℚ) (population_size : ℤ) (evalEpisodes : ℕ)
    (episodes : ℕ) (p0 : ParameterSet) (σ0 : ℕ) : Except Unit TrainResult :=
  match (List.range' 1 episodes).foldl
      (popGen E noiseOf genSeedOf std population_size evalEpisodes)
      (.ok ⟨p0, σ0, [], ⊥, ⊤, -1, -1⟩) with
  | .error e => .error e
  | .ok s => .ok { logLines := s.logLines
                   bestTrack := some (s.bestEpisode, s.bestReward)
                   worstTrack := some (s.worstEpisode, s.worstReward)
                   snapshot := some s.policy }

/-- Model of `train()` of `RL_ZerothOrder.py`: `for episode in range(1, NUM_EPISODES)`
— note the missing `+ 1` — runs `NUM_EPISODES - 1` generations with indices
`1..NUM_EPISODES-1`, logging one line each; it tracks no best/worst and
saves no snapshot (the source has no `torch.save` and no tracking
variables). -/
def zerothTrain (E : EnvModel) (ns : ℕ → String → ℕ → ℚ) (std lr : ℚ)
    (evalEpisodes : ℕ) (numEpisodes : ℕ) (p0 : ParameterSet) (σ0 : ℕ) :
    TrainResult :=
  let fin := (List.range' 1 (numEpisodes - 1)).foldl
    (fun (acc : ParameterSet × ℕ × List (ℕ × WithBot ℚ)) ep =>
      let r := zeroth_order E acc.1 (ns ep) std lr evalEpisodes acc.2.1
      (r.1, r.2.2, acc.2.2 ++ [(ep, (r.2.1 : WithBot ℚ))]))
    (p0, σ0, [])
  { logLines := fin.2.2
    bestTrack := none
    worstTrack := none
    snapshot := none }

/-- The best/worst trackers of the population `train()` loop bound every
logged reward, and (once something was logged) are attained by some logged
generation; an empty log leaves them at the `±inf` sentinels. -/
def PopInv (s : PopState) : Prop :=
  (∀ x ∈ s.logLines,
    x.2 ≤ s.bestReward ∧ s.worstReward ≤ (x.2 : WithTop (WithBot ℚ))) ∧
  (s.logLines = [] → s.bestReward = ⊥ ∧ s.worstReward = ⊤) ∧
  (s.logLines ≠ [] →
    (∃ x ∈ s.logLines, (x.1 : ℤ) = s.bestEpisode ∧ x.2 = s.bestReward) ∧
    (∃ x ∈ s.logLines,
      (x.1 : ℤ) = s.worstEpisode ∧ (x.2 : WithTop (WithBot ℚ)) = s.worstReward))

/-- One non-crashing generation of the population `train()` loop preserves
the best/worst invariant and appends exactly one log line. -/
lemma popNext_inv (s : PopState) (hs : PopInv s) (ep : ℕ) (c : ParameterSet)
    (q : ℚ) (σ' : ℕ) :
    PopInv (popNext s ep c (q : WithBot ℚ) σ') ∧
      (popNext s ep c (q : WithBot ℚ) σ').logLines.length
        = s.logLines.length + 1 := by
  obtain ⟨hbound, hempty, hatt⟩ := hs
  refine ⟨⟨?_, ?_, ?_⟩, by simp [popNext]⟩
  · intro x hx
    rcases List.mem_append.mp hx with hx' | hx'
    · obtain ⟨hb, hw⟩ := hbound x hx'
      constructor
      · by_cases hc : s.bestReward < (q : WithBot ℚ)
        · simp only [popNext, if_pos hc]
          exact le_trans hb (le_of_lt hc)
        · simp only [popNext, if_neg hc]
          exact hb
      · by_cases hc : ((q : WithBot ℚ) : WithTop (WithBot ℚ)) < s.worstReward
        · simp only [popNext, if_pos hc]
          exact le_trans (le_of_lt hc) hw
        · simp only [popNext, if_neg hc]
          exact hw
    · rw [List.mem_singleton] at hx'
      subst hx'
      constructor
      · by_cases hc : s.bestReward < (q : WithBot ℚ)
        · simp only [popNext, if_pos hc]
          exact le_refl _
        · simp only [popNext, if_neg hc]
          exact le_of_not_lt hc
      · by_cases hc : ((q : WithBot ℚ) : WithTop (WithBot ℚ)) < s.worstReward
        · simp only [popNext, if_pos hc]
          exact le_refl _
        · simp only [popNext, if_neg hc]
          exact le_of_not_lt hc
  · intro hcon
    simp [popNext] at hcon
  · intro _
    constructor
    · by_cases hc : s.bestReward < (q : WithBot ℚ)
      · refine ⟨(ep, (q : WithBot ℚ)), ?_, ?_, ?_⟩
        · exact List.mem_append_right _ (List.mem_singleton_self _)
        · simp [popNext, if_pos hc]
        · simp [popNext, if_pos hc]
      · by_cases hlog : s.logLines = []
        · obtain ⟨hb, -⟩ := hempty hlog
          rw [hb] at hc
          exact absurd (WithBot.bot_lt_coe q) hc
        · obtain ⟨⟨x, hx, hx1, hx2⟩, -⟩ := hatt hlog
          refine ⟨x, List.mem_append_left _ hx, ?_, ?_⟩
          · simp only [popNext, if_neg hc]
            exact hx1
          · simp only [popNext, if_neg hc]
            exact hx2
    · by_cases hc : ((q : WithBot ℚ) : WithTop (WithBot ℚ)) < s.worstReward
      · refine ⟨(ep, (q : WithBot ℚ)), ?_, ?_, ?_⟩
        · exact List.mem_append_right _ (List.mem_singleton_self _)
        · simp [popNext, if_pos hc]
        · simp [popNext, if_pos hc]
      · by_cases hlog : s.logLines = []
        · obtain ⟨-, hw⟩ := hempty hlog
          rw [hw] at hc
          exact absurd (WithTop.coe_lt_top ((q : ℚ) : WithBot ℚ)) hc
        · obtain ⟨-, ⟨x, hx, hx1, hx2⟩⟩ := hatt hlog
          refine ⟨x, List.mem_append_left _ hx, ?_, ?_⟩
          · simp only [popNext, if_neg hc]
            exact hx1
          · simp only [popNext, if_neg hc]
            exact hx2

/-- With at least one candidate per generation, one step of the population
`train()` loop succeeds, preserves the invariant and appends one line. -/
lemma popGen_ok (E : EnvModel) (noiseOf : ℕ → ℕ → String → ℕ → ℚ)
    (genSeedOf : ℕ → ℤ) (std : ℚ) (population_size : ℤ) (evalEpisodes : ℕ)
    (hpop : 1 ≤ population_size) (s : PopState) (hs : PopInv s) (ep : ℕ) :
    ∃ s', popGen E noiseOf genSeedOf std population_size evalEpisodes
        (.ok s) ep = .ok s' ∧ PopInv s' ∧
      s'.logLines.length = s.logLines.length + 1 := by
  obtain ⟨c, q, l₁, l₂, hpm, -, -, -⟩ :=
    population_method_argmax E s.policy (noiseOf ep) std population_size
      evalEpisodes (genSeedOf ep) s.env hpop
  refine ⟨popNext s ep c (q : WithBot ℚ)
      (candScores E s.policy (noiseOf ep) std population_size evalEpisodes
        (genSeedOf ep) s.env).2, ?_, (popNext_inv s hs ep c q _).1,
    (popNext_inv s hs ep c q _).2⟩
  show (match (population_method E s.policy (noiseOf ep) std population_size
      evalEpisodes (genSeedOf ep) s.env).1 with
    | none => Except.error ()
    | some c => Except.ok (popNext s ep c
        (population_method E s.policy (noiseOf ep) std population_size
          evalEpisodes (genSeedOf ep) s.env).2.1
        (population_method E s.policy (noiseOf ep) std population_size
          evalEpisodes (genSeedOf ep) s.env).2.2)) = _
  rw [hpm]

/-- Folding the population training loop from an invariant state succeeds,
preserves the invariant, and appends one line per generation. -/
lemma popTrain_fold (E : EnvModel) (noiseOf : ℕ → ℕ → String → ℕ → ℚ)
    (genSeedOf : ℕ → ℤ) (std : ℚ) (population_size : ℤ) (evalEpisodes : ℕ)
    (hpop : 1 ≤ population_size) :
    ∀ (l : List ℕ) (s : PopState), PopInv s →
      ∃ s', l.foldl (popGen E noiseOf genSeedOf std population_size
          evalEpisodes) (.ok s) = .ok s' ∧ PopInv s' ∧
        s'.logLines.length = s.logLines.length + l.length := by
  intro l
  induction l with
  | nil => intro s hs; exact ⟨s, rfl, hs, by simp⟩
  | cons ep t ih =>
    intro s hs
    obtain ⟨s₁, hstep, hinv₁, hlen₁⟩ :=
      popGen_ok E noiseOf genSeedOf std population_size evalEpisodes hpop s
        hs ep
    obtain ⟨s', hfold, hinv', hlen'⟩ := ih s₁ hinv₁
    refine ⟨s', ?_, hinv', ?_⟩
    · rw [List.foldl_cons, hstep]
      exact hfold
    · rw [hlen', hlen₁, List.length_cons]
      omega

/-- C3 (amended): at the completion of a population run (`population_size ≥
1`, at least one generation) the Trainer writes a single snapshot holding
the final policy's full name-to-tensor `ParameterSet` and has tracked
best/worst generation indices and rewards bounding (and attained by) the
logged rewards; the zeroth-order Trainer, by contrast, writes no snapshot
and tracks no best/worst at all. -/
theorem claim3_theorem (E : EnvModel) (noiseOf : ℕ → ℕ → String → ℕ → ℚ)
    (genSeedOf : ℕ → ℤ) (std : ℚ) (population_size : ℤ) (evalEpisodes : ℕ)
    (episodes : ℕ) (p0 : ParameterSet) (σ0 : ℕ)
    (E₂ : EnvModel) (ns : ℕ → String → ℕ → ℚ) (std₂ lr : ℚ)
    (evalEps₂ numEpisodes : ℕ) (q0 : ParameterSet) (τ0 : ℕ)
    (hpop : 1 ≤ population_size) (heps : 1 ≤ episodes) :
    (∃ res : TrainResult,
      popTrain E noiseOf genSeedOf std population_size evalEpisodes episodes
          p0 σ0 = .ok res ∧
      (∃ ps, res.snapshot = some ps) ∧
      (∃ be br, res.bestTrack = some (be, br) ∧
        (∀ x ∈ res.logLines, x.2 ≤ br) ∧
        (∃ x ∈ res.logLines, (x.1 : ℤ) = be ∧ x.2 = br)) ∧
      (∃ we wr, res.worstTrack = some (we, wr) ∧
        (∀ x ∈ res.logLines, wr ≤ (x.2 : WithTop (WithBot ℚ))) ∧
        (∃ x ∈ res.logLines,
          (x.1 : ℤ) = we ∧ (x.2 : WithTop (WithBot ℚ)) = wr))) ∧
    ((zerothTrain E₂ ns std₂ lr evalEps₂ numEpisodes q0 τ0).snapshot = none ∧
     (zerothTrain E₂ ns std₂ lr evalEps₂ numEpisodes q0 τ0).bestTrack
        = none ∧
     (zerothTrain E₂ ns std₂ lr evalEps₂ numEpisodes q0 τ0).worstTrack
        = none) := by
  refine ⟨?_, rfl, rfl, rfl⟩
  have hinv0 : PopInv ⟨p0, σ0, [], ⊥, ⊤, -1, -1⟩ := by
    refine ⟨?_, ?_, ?_⟩
    · intro x hx
      cases hx
    · intro _
      exact ⟨rfl, rfl⟩
    · intro h
      exact absurd rfl h
  obtain ⟨s', hfold, hinv', hlen'⟩ :=
    popTrain_fold E noiseOf genSeedOf std population_size evalEpisodes hpop
      (List.range' 1 episodes) _ hinv0
  have hlog : s'.logLines ≠ [] := by
    intro hnil
    rw [hnil] at hlen'
    simp [List.length_range'] at hlen'
    omega
  obtain ⟨hbound, -, hatt⟩ := hinv'
  obtain ⟨⟨xb, hxb, hxb1, hxb2⟩, ⟨xw, hxw, hxw1, hxw2⟩⟩ := hatt hlog
  refine ⟨{ logLines := s'.logLines
            bestTrack := some (s'.bestEpisode, s'.bestReward)
            worstTrack := some (s'.worstEpisode, s'.worstReward)
            snapshot := some s'.policy },
    ?_, ⟨s'.policy, rfl⟩,
    ⟨s'.bestEpisode, s'.bestReward, rfl,
      fun x hx => (hbound x hx).1, ⟨xb, hxb, hxb1, hxb2⟩⟩,
    ⟨s'.worstEpisode, s'.worstReward, rfl,
      fun x hx => (hbound x hx).2, ⟨xw, hxw, hxw1, hxw2⟩⟩⟩
  unfold popTrain
  rw [hfold]

/-- Witness for `claim3_theorem` at a concrete one-generation population run
(and a concrete zeroth-order run). -/
theorem claim3_witness :
    (∃ res : TrainResult,
      popTrain Edemo (fun _ _ _ _ => 0) (fun _ => 1) 1 1 1 1 pDemo 0
          = .ok res ∧
      (∃ ps, res.snapshot = some ps) ∧
      (∃ be br, res.bestTrack = some (be, br) ∧
        (∀ x ∈ res.logLines, x.2 ≤ br) ∧
        (∃ x ∈ res.logLines, (x.1 : ℤ) = be ∧ x.2 = br)) ∧
      (∃ we wr, res.worstTrack = some (we, wr) ∧
        (∀ x ∈ res.logLines, wr ≤ (x.2 : WithTop (WithBot ℚ))) ∧
        (∃ x ∈ res.logLines,
          (x.1 : ℤ) = we ∧ (x.2 : WithTop (WithBot ℚ)) = wr))) ∧
    ((zerothTrain Edemo (fun _ _ _ => 1) 1 1 1 2 pDemo 0).snapshot = none ∧
     (zerothTrain Edemo (fun _ _ _ => 1) 1 1 1 2 pDemo 0).bestTrack = none ∧
     (zerothTrain Edemo (fun _ _ _ => 1) 1 1 1 2 pDemo 0).worstTrack
        = none) :=
  claim3_theorem Edemo (fun _ _ _ _ => 0) (fun _ => 1) 1 1 1 1 pDemo 0
    Edemo (fun _ _ _ => 1) 1 1 1 2 pDemo 0 (by decide) (by decide)

/-- Counterexample to C3 as stated ("every run of either optimizer
strategy"): this completed zeroth-order run writes no parameter snapshot and
has tracked neither a best nor a worst generation. -/
theorem claim3_counterexample :
    (zerothTrain Edemo (fun _ _ _ => 0) 1 1 1 3 pDemo 0).snapshot = none ∧
    (zerothTrain Edemo (fun _ _ _ => 0) 1 1 1 3 pDemo 0).bestTrack = none ∧
    (zerothTrain Edemo (fun _ _ _ => 0) 1 1 1 3 pDemo 0).worstTrack = none :=
  ⟨rfl, rfl, rfl⟩

/-- C4: claim says each strategy's Trainer runs exactly `G` configured
generations, logging lines `1..G`.  The population `train()` does
(`range(1, EPISODES + 1)`), but the zeroth-order `train()` loops
`range(1, NUM_EPISODES)` and so runs only `G - 1` generations: with
`NUM_EPISODES = 2` it logs exactly one line (index 1) instead of two, while
the population trainer with `EPISODES = 2` logs exactly the indices
`[1, 2]`.  This contradicts the source's own description of `NUM_EPISODES`
("Number of training episodes - iterations of the algorithm"). -/
theorem claim4_theorem :
    (zerothTrain Edemo (fun _ _ _ => 1) 1 1 1 2 pDemo 0).logLines.map
        Prod.fst = [1] ∧
    (popTrain Edemo (fun _ _ _ _ => 0) (fun _ => 1) 1 1 1 2 pDemo
        0).toOption.map (fun r => r.logLines.map Prod.fst) = some [1, 2] := by
  constructor
  · simp [zerothTrain]
  · simp [popTrain, popGen, popNext, population_method, popStep,
      Except.toOption, List.range'_succ, Int.toNat_one,
      show List.range 1 = [0] from rfl, WithBot.bot_lt_coe]

/-! ### C9 — clone independence (`PolicyNet.clone` is `copy.deepcopy`).

To talk about aliasing at all, tensor storage is made explicit: a heap of
tensor buffers indexed by address, with policies holding name → address
maps.  `clone` allocates a fresh buffer per parameter holding a value-copy;
mutation is an in-place write to one buffer. -/

/-- Tensor storage: the heap, a list of tensor buffers indexed by address. -/
abbrev Heap := List Tensor

/-- Read the tensor buffer at address `a` (empty if unallocated). -/
def readTensor (h : Heap) (a : ℕ) : Tensor := (h[a]?).getD []

/-- Mutate in place the tensor buffer at address `a`. -/
def writeTensor (h : Heap) (a : ℕ) (v : Tensor) : Heap := h.set a v

/-- A `PolicyNet`'s `ParameterSet` as storage references: an ordered
name → heap-address map (the `state_dict()` tensors share storage with the
module's parameters). -/
abbrev PolicyRef := List (String × ℕ)

/-- All of a policy's parameter buffers are allocated on the heap. -/
def validRef (h : Heap) (p : PolicyRef) : Prop := ∀ e ∈ p, e.2 < h.length

/-- Model of `PolicyNet.clone` = `copy.deepcopy(self)`: allocate one fresh buffer per
named parameter (at the end of the heap), value-copying the source tensor,
and return the new heap together with the clone's name → address map. -/
def clonePolicy (h : Heap) (p : PolicyRef) : Heap × PolicyRef :=
  p.foldl (fun acc e => (acc.1 ++ [readTensor h e.2],
    acc.2 ++ [(e.1, acc.1.length)])) (h, [])

/-- The addresses handed to a clone's parameters, starting at `start`. -/
def cloneAddrs (start : ℕ) : PolicyRef → PolicyRef
  | [] => []
  | e :: t => (e.1, start) :: cloneAddrs (start + 1) t

lemma clone_fold (h : Heap) :
    ∀ (p : PolicyRef) (hacc : Heap) (qacc : PolicyRef),
      p.foldl (fun acc e => (acc.1 ++ [readTensor h e.2],
          acc.2 ++ [(e.1, acc.1.length)])) (hacc, qacc)
        = (hacc ++ p.map (fun e => readTensor h e.2),
           qacc ++ cloneAddrs hacc.length p) := by
  intro p
  induction p with
  | nil => intro hacc qacc; simp [cloneAddrs]
  | cons e t ih =>
    intro hacc qacc
    rw [List.foldl_cons]
    dsimp only
    rw [ih (hacc ++ [readTensor h e.2]) (qacc ++ [(e.1, hacc.length)])]
    simp [cloneAddrs, List.append_assoc]

lemma readTensor_append_lt (h h' : Heap) (a : ℕ) (ha : a < h.length) :
    readTensor (h ++ h') a = readTensor h a := by
  unfold readTensor
  rw [List.getElem?_append_left ha]

lemma readTensor_append_add (h h' : Heap) (i : ℕ) :
    readTensor (h ++ h') (h.length + i) = readTensor h' i := by
  unfold readTensor
  rw [List.getElem?_append_right (Nat.le_add_right _ _),
    Nat.add_sub_cancel_left]

lemma readTensor_set_ne (h : Heap) (a b : ℕ) (v : Tensor) (hab : b ≠ a) :
    readTensor (writeTensor h b v) a = readTensor h a := by
  unfold readTensor writeTensor
  rw [List.getElem?_set_ne hab]

lemma readTensor_map (f : (String × ℕ) → Tensor) (p : PolicyRef) (i : ℕ)
    (hi : i < p.length) :
    readTensor (p.map f) i = f p[i] := by
  unfold readTensor
  rw [List.getElem?_map, List.getElem?_eq_getElem hi]
  rfl

lemma cloneAddrs_mem_ge :
    ∀ (p : PolicyRef) (start : ℕ), ∀ e' ∈ cloneAddrs start p, start ≤ e'.2 := by
  intro p
  induction p with
  | nil => intro start e' he'; cases he'
  | cons e t ih =>
    intro start e' he'
    rcases List.mem_cons.mp he' with rfl | hmem
    · exact le_refl _
    · exact le_trans (Nat.le_succ _) (ih (start + 1) e' hmem)

lemma cloneAddrs_map_read (H h : Heap) :
    ∀ (p : PolicyRef) (start : ℕ),
      (∀ (i : ℕ) (hi : i < p.length),
        readTensor H (start + i) = readTensor h p[i].2) →
      (cloneAddrs start p).map (fun u => (u.1, readTensor H u.2))
        = p.map (fun u => (u.1, readTensor h u.2)) := by
  intro p
  induction p with
  | nil => intro start _; rfl
  | cons e t ih =>
    intro start hread
    simp only [cloneAddrs, List.map_cons, List.cons.injEq]
    refine ⟨?_, ?_⟩
    · have h0 := hread 0 (by simp)
      simp only [Nat.add_zero, List.getElem_cons_zero] at h0
      rw [h0]
    · refine ih (start + 1) ?_
      intro i hi
      have hsucc := hread (i + 1) (by simp only [List.length_cons]; omega)
      rw [List.getElem_cons_succ] at hsucc
      rw [show start + 1 + i = start + (i + 1) from by omega]
      exact hsucc

/-- C9: after `c = p.clone()` returns, the clone's `ParameterSet` is
value-identical to `p`'s (reading every cloned address yields the source's
tensor values), and subsequently mutating any one of the clone's parameter
buffers — whatever the parameter name and new value — leaves every parameter
value of the source policy exactly as it was before the clone: the fresh
buffers are disjoint from the source's, so there is no storage aliasing. -/
theorem claim9_theorem (h : Heap) (p : PolicyRef) (v : Tensor)
    (e' : String × ℕ) (e : String × ℕ)
    (hval : validRef h p) (he' : e' ∈ (clonePolicy h p).2) (he : e ∈ p) :
    ((clonePolicy h p).2.map
        (fun u => (u.1, readTensor (clonePolicy h p).1 u.2))
      = p.map (fun u => (u.1, readTensor h u.2))) ∧
    readTensor (writeTensor (clonePolicy h p).1 e'.2 v) e.2
      = readTensor h e.2 := by
  have hclone : clonePolicy h p
      = (h ++ p.map (fun u => readTensor h u.2), cloneAddrs h.length p) := by
    unfold clonePolicy
    rw [clone_fold]
    simp
  constructor
  · rw [hclone]
    dsimp only
    refine cloneAddrs_map_read _ h p h.length ?_
    intro i hi
    rw [readTensor_append_add, readTensor_map _ _ _ hi]
  · rw [hclone] at he' ⊢
    dsimp only at he' ⊢
    have hge : h.length ≤ e'.2 := cloneAddrs_mem_ge p h.length e' he'
    have hlt : e.2 < h.length := hval e he
    rw [readTensor_set_ne _ _ _ _ (by omega)]
    exact readTensor_append_lt h _ e.2 hlt

/-- A tiny concrete heap and policy for the C9 witness. -/
def hDemo : Heap := [[1, 2], [3]]

/-- The concrete policy reference living on `hDemo`. -/
def pRefDemo : PolicyRef := [("network.0.weight", 0), ("network.0.bias", 1)]

/-- Witness for `claim9_theorem`: clone the two-parameter demo policy,
overwrite the clone's first parameter buffer (address 2), and observe the
source's parameters are value-identical and untouched. -/
theorem claim9_witness :
    ((clonePolicy hDemo pRefDemo).2.map
        (fun u => (u.1, readTensor (clonePolicy hDemo pRefDemo).1 u.2))
      = pRefDemo.map (fun u => (u.1, readTensor hDemo u.2))) ∧
    readTensor (writeTensor (clonePolicy hDemo pRefDemo).1
        ("network.0.weight", 2).2 [9, 9]) ("network.0.bias", 1).2
      = readTensor hDemo ("network.0.bias", 1).2 :=
  claim9_theorem hDemo pRefDemo [9, 9] ("network.0.weight", 2)
    ("network.0.bias", 1) (by unfold validRef; decide) (by decide) (by decide)

end RL
